import Mathlib

/-!
Verification of the cookie cleaning and analysis engine (cleaner/cleaner.py).

The Python source is embedded shallowly: strings are Lean `String`
(a wrapper around `List Char` in this toolchain), Python string methods
are modelled by structurally recursive functions over the character
lists, Python dicts and Counters are modelled by association lists that
preserve insertion order, Python sets are modelled by duplicate-free
lists, and exceptions are modelled by `Except`.  Unix timestamps are
integers (seconds); `datetime.fromtimestamp` accepts them only up to
`DATETIME_MAX_TS` (the last second of year 9999) and its range
ValueError and the uncaught platform-conversion failure past
`platformMax` are both modelled (see `oldestLoop` and `oldestLoopExc`).
Python `.lower()` and `int()` are modelled on their ASCII fragments,
the latter with the underscore-grouped digit grammar.  The site/pattern
catalog
(SITES) and the scoring rule table (SCORING_RULES) are loaded by the
program from a config.json that is external to the analysed sources, so
every definition and theorem is parametric in them.
-/

namespace Cleaner

/-! ## String primitives modelling Python string operations -/

/-- Is `needle` a prefix of the character list? Mirrors `List.isPrefixOf`. -/
def prefixAt : List Char → List Char → Bool
  | [], _ => true
  | _ :: _, [] => false
  | a :: as, b :: bs => (a == b) && prefixAt as bs

/-- Substring containment on character lists, used to model the Python
`in` operator on strings (`needle in hay`). -/
def containsAux (needle : List Char) : List Char → Bool
  | [] => needle.isEmpty
  | c :: cs => prefixAt needle (c :: cs) || containsAux needle cs

/-- Model of the Python expression `needle in hay` for strings. -/
def strContains (needle hay : String) : Bool :=
  containsAux needle.data hay.data

/-- Model of Python `str.lower()` (ASCII fragment). -/
def pyLower (s : String) : String :=
  ⟨s.data.map Char.toLower⟩

/-- Model of Python `str.upper()` on one character (ASCII fragment). -/
def upperChar (c : Char) : Char := c.toUpper

/-- Whitespace characters stripped by Python `str.strip()` (ASCII fragment). -/
def isPySpace (c : Char) : Bool :=
  c == ' ' || c == '\t' || c == '\n' || c == '\x0d' || c == '\x0b' || c == '\x0c'

/-- Model of Python `str.strip()`: drop whitespace from both ends. -/
def pyStrip (s : String) : String :=
  ⟨((s.data.dropWhile isPySpace).reverse.dropWhile isPySpace).reverse⟩

/-- Model of Python `str.lstrip(".")`: drop all leading dots. -/
def lstripDots (s : String) : String :=
  ⟨s.data.dropWhile (· == '.')⟩

/-- Split a character list on a single separator character, exactly like
Python `str.split(sep)` with a one-character separator. -/
def splitChAux (sep : Char) : List Char → List (List Char)
  | [] => [[]]
  | c :: cs =>
    let r := splitChAux sep cs
    if c == sep then [] :: r
    else
      match r with
      | h :: t => (c :: h) :: t
      | [] => [[c]]

/-- Model of Python `s.split(sep)` for a one-character separator. -/
def pySplitCh (sep : Char) (s : String) : List String :=
  (splitChAux sep s.data).map (⟨·⟩)

/-- Model of Python `sep.join(parts)`. -/
def pyJoin (sep : String) : List String → String
  | [] => ""
  | [x] => x
  | x :: xs => x ++ sep ++ pyJoin sep xs

/-- Fuel-driven splitter for a multi-character separator, exactly like
Python `str.split(sep)` (leftmost, non-overlapping). The fuel is the
length of the input, which always suffices. -/
def splitStrAux (sep : List Char) : Nat → List Char → List (List Char)
  | _, [] => [[]]
  | 0, l => [l]
  | fuel + 1, c :: cs =>
    if prefixAt sep (c :: cs) then
      [] :: splitStrAux sep fuel (List.drop (sep.length - 1) cs)
    else
      match splitStrAux sep fuel cs with
      | h :: t => (c :: h) :: t
      | [] => [[c]]

/-- Model of Python `s.split(sep)` for a non-empty separator string. -/
def pySplitStr (sep s : String) : List String :=
  (splitStrAux sep.data s.data.length s.data).map (⟨·⟩)

/-- Model of Python `s.replace(old, new)`; Python guarantees
`s.replace(old, new) == new.join(s.split(old))` for non-empty `old`. -/
def pyReplace (s old new : String) : String :=
  pyJoin new (pySplitStr old s)

/-- Model of Python `s.rstrip(ch)` for a one-character strip set. -/
def pyRstripCh (ch : Char) (s : String) : String :=
  ⟨(s.data.reverse.dropWhile (· == ch)).reverse⟩

/-- Model of Python `str.capitalize()` (ASCII fragment): first character
upper-cased, the rest lower-cased. -/
def pyCapitalize (s : String) : String :=
  match s.data with
  | [] => ""
  | c :: rest => ⟨upperChar c :: rest.map Char.toLower⟩

/-- Continuation of the digit-run parser after at least one digit was
consumed: further digits extend the accumulator, and a single
underscore is allowed only when a digit immediately follows it, per the
Python integer-literal grammar used by `int()`. -/
def digitsToNat?Aux (acc : Nat) : List Char → Option Nat
  | [] => some acc
  | '_' :: c :: cs =>
    if c.isDigit then digitsToNat?Aux (acc * 10 + (c.toNat - 48)) cs else none
  | c :: cs =>
    if c.isDigit then digitsToNat?Aux (acc * 10 + (c.toNat - 48)) cs else none

/-- Digit-run parser of Python `int()`: `some n` when the list is a
non-empty run of ASCII digits with optional single underscores between
two digits (`int("1_0")` is 10; leading, trailing or doubled
underscores are rejected, as Python rejects them). -/
def digitsToNat? : List Char → Option Nat
  | [] => none
  | '_' :: _ => none
  | c :: cs => if c.isDigit then digitsToNat?Aux (c.toNat - 48) cs else none

/-- Model of Python `int(s)` on its ASCII fragment: strip surrounding
whitespace, allow one optional sign, then a non-empty underscore-grouped
run of decimal digits (Python additionally accepts non-ASCII Unicode
decimal digits, outside this model). -/
def pyInt? (s : String) : Option Int :=
  match (pyStrip s).data with
  | '-' :: rest => (digitsToNat? rest).map (fun n => -(n : Int))
  | '+' :: rest => (digitsToNat? rest).map (fun n => (n : Int))
  | l => (digitsToNat? l).map (fun n => (n : Int))

/-! ## Domain normalizer (get_main_domain) -/

/-- The ordered domain-mapping table from get_main_domain, copied in
source order (Python dicts preserve insertion order). -/
def domain_mappings : List (String × List String) :=
  [ ("linkedin", ["linkedin"])
  , ("github", ["github"])
  , ("discord", ["discord"])
  , ("twitch", ["twitch"])
  , ("netflix", ["netflix"])
  , ("spotify", ["spotify"])
  , ("reddit", ["reddit"])
  , ("tiktok", ["tiktok"])
  , ("paypal", ["paypal"])
  , ("x", ["x.com", "twitter"])
  , ("google", ["google", "youtube", "gmail"])
  , ("amazon", ["amazon"])
  , ("ebay", ["ebay"])
  , ("facebook", ["facebook", "fb"])
  , ("instagram", ["instagram"])
  , ("roblox", ["roblox"])
  , ("steam", ["steam", "steampowered"])
  , ("epicgames", ["epicgames", "epic"])
  , ("microsoft", ["microsoft", "live", "outlook"])
  , ("apple", ["apple", "icloud"])
  , ("genshin", ["genshin", "mihoyo"])
  , ("minecraft", ["minecraft", "mojang"])
  ]

/-- Embedding of `get_main_domain`: lower-case, strip leading dots, scan
the mapping table for the first entry one of whose patterns occurs in
the domain, otherwise fall back to the last two dot-separated labels. -/
def get_main_domain (domain : String) : String :=
  let d := lstripDots (pyLower domain)
  match domain_mappings.find? (fun p => p.2.any (fun pat => strContains pat d)) with
  | some p => p.1
  | none =>
    let parts := pySplitCh '.' d
    if 2 ≤ parts.length then pyJoin "." (parts.drop (parts.length - 2))
    else d

/-! Claim-side reimplementation of the normalizer, written from the
words of the specification (ordered first-match-wins rule scan with a
last-two-labels fallback), used to state the refinement claim C5. -/

/-- First-match-wins scan over the ordered rule list, following the
sentence of the spec: return the canonical name of the first rule any of
whose patterns is a substring of the domain. -/
def firstRuleMatch (rules : List (String × List String)) (d : String) : Option String :=
  match rules with
  | [] => none
  | (name, pats) :: rest =>
    if pats.any (fun pat => strContains pat d) then some name
    else firstRuleMatch rest d

/-- The last two dot-separated labels of the domain joined by a dot, per
the fallback sentence of the spec. -/
def lastTwoLabels (d : String) : String :=
  match (pySplitCh '.' d).reverse with
  | b :: a :: _ => a ++ "." ++ b
  | _ => d

/-- Specification-side normalizer: strip leading dots and lower-case,
then first-match-wins over the ordered rules, else the last-two-labels
fallback. -/
def normalize_spec (domain : String) : String :=
  let d := lstripDots (pyLower domain)
  match firstRuleMatch domain_mappings d with
  | some name => name
  | none => lastTwoLabels d

/-! ## Pattern catalog (SITES), parametric -/

/-- One entry of the SITES catalog: the ordered service table
(service name to domain substrings) and the auth cookie-name substrings.
The catalog itself is loaded from config.json, external to the analysed
sources, so it stays a parameter throughout. -/
structure SiteEntry where
  services : List (String × List String)
  auth : List String

/-- The SITES catalog: an insertion-ordered dict from main domain to its
entry, modelled as an association list. -/
abbrev Sites := List (String × SiteEntry)

/-- Embedding of `detect_service`: for a catalog site return the first
service any of whose domain keys occurs in the lower-cased full domain,
else "other"; for an unknown site return the empty string. -/
def detect_service (sites : Sites) (main_domain domain : String) : String :=
  let d := pyLower domain
  match sites.find? (fun p => p.1 == main_domain) with
  | some p =>
    match p.2.services.find? (fun sv => sv.2.any (fun k => strContains k d)) with
    | some sv => sv.1
    | none => "other"
  | none => ""

/-- Embedding of `detect_auth`: for a catalog site return the first auth
pattern whose lower-casing occurs in the lower-cased cookie name. -/
def detect_auth (sites : Sites) (main_domain cookie_name : String) : Option String :=
  match sites.find? (fun p => p.1 == main_domain) with
  | some p => p.2.auth.find? (fun a => strContains (pyLower a) (pyLower cookie_name))
  | none => none

/-! ## Cookie parser (parse_cookies) -/

/-- Model of `collections.Counter` updates: insertion-ordered association
list; `bump m k` is `m[k] += 1`. -/
def bump (m : List (String × Nat)) (k : String) : List (String × Nat) :=
  match m with
  | [] => [(k, 1)]
  | (k0, v) :: rest => if k0 = k then (k0, v + 1) :: rest else (k0, v) :: bump rest k

/-- Model of `defaultdict(Counter)` updates: `m[k1][k2] += 1`. -/
def bumpNested (m : List (String × List (String × Nat))) (k1 k2 : String) :
    List (String × List (String × Nat)) :=
  match m with
  | [] => [(k1, [(k2, 1)])]
  | (k, c) :: rest =>
    if k = k1 then (k, bump c k2) :: rest else (k, c) :: bumpNested rest k1 k2

/-- Model of `defaultdict(set)` insertion: `m[k].add(a)`. -/
def addAuth (m : List (String × List String)) (k a : String) :
    List (String × List String) :=
  match m with
  | [] => [(k, [a])]
  | (k0, s) :: rest =>
    if k0 = k then (k0, if s.contains a then s else s ++ [a]) :: rest
    else (k0, s) :: addAuth rest k a

/-- Association-list lookup with a default, modelling `dict.get`. -/
def lookupD {α : Type} (m : List (String × α)) (k : String) (d : α) : α :=
  match m.find? (fun p => p.1 == k) with
  | some p => p.2
  | none => d

/-- Sum of the counts of a Counter. -/
def sumCounts (m : List (String × Nat)) : Nat :=
  (m.map Prod.snd).sum

/-- The accumulator state of `parse_cookies`: the three returned
aggregates plus the `seen_cookies` dedup set (modelled as the list of
keys in reverse insertion order). -/
structure ParseState where
  site_counter : List (String × Nat)
  service_counter : List (String × List (String × Nat))
  auth_detected : List (String × List String)
  seen : List String

def initState : ParseState := ⟨[], [], [], []⟩

/-- The dedup key of a line: `f"{domain}|{cookie_name}"` with
`domain = parts[0]` and `cookie_name = parts[5]`. -/
def lineKey (line : String) : String :=
  let parts := pySplitCh '\t' line
  parts.headD "" ++ "|" ++ parts.getD 5 ""

/-- Embedding of one loop iteration of `parse_cookies`: strip the line,
skip blank and short lines, dedup on the key, then classify and count. -/
def parseLine (sites : Sites) (st : ParseState) (raw : String) : ParseState :=
  let line := pyStrip raw
  if line = "" then st
  else
    let parts := pySplitCh '\t' line
    if parts.length < 7 then st
    else
      let domain := parts.headD ""
      let cookie_name := parts.getD 5 ""
      let key := domain ++ "|" ++ cookie_name
      if st.seen.contains key then st
      else
        let main_domain := get_main_domain domain
        let service := detect_service sites main_domain domain
        { site_counter := bump st.site_counter main_domain
          service_counter := bumpNested st.service_counter main_domain service
          auth_detected :=
            match detect_auth sites main_domain cookie_name with
            | some a => addAuth st.auth_detected main_domain a
            | none => st.auth_detected
          seen := key :: st.seen }

/-- Embedding of the loop of `parse_cookies` over the raw lines of the
input file. -/
def parseLines (sites : Sites) (raws : List String) : ParseState :=
  raws.foldl (parseLine sites) initState

/-- The exceptions observable from the embedded functions. -/
inductive PyErr where
  | fileNotFound (path : String)
  | nameError (name : String)
  | osError
deriving DecidableEq, Repr

/-- Embedding of `parse_cookies`: a missing input file is a fatal
FileNotFoundError logged with the file path and re-raised. -/
def parse_cookies (sites : Sites) (fs : String → Option (List String))
    (path : String) : Except PyErr ParseState :=
  match fs path with
  | some raws => .ok (parseLines sites raws)
  | none => .error (.fileNotFound path)

/-! ## The clean pass of clean_cookies -/

/-- Embedding of the read in `clean_cookies`:
`all_lines = [line.strip() for line in f if line.strip()]`. -/
def prepLines (raws : List String) : List String :=
  (raws.map pyStrip).filter (fun l => l ≠ "")

/-- Embedding of the selection loop of `clean_cookies`: dedup on the
same key as the parser, keep the lines whose cookie name matched an auth
pattern; returns the kept lines and the final `seen_cookies` set. -/
def cleanLoop (sites : Sites) (seen : List String) :
    List String → List String × List String
  | [] => ([], seen)
  | line :: rest =>
    let parts := pySplitCh '\t' line
    if parts.length < 7 then cleanLoop sites seen rest
    else
      let key := parts.headD "" ++ "|" ++ parts.getD 5 ""
      if seen.contains key then cleanLoop sites seen rest
      else
        let r := cleanLoop sites (key :: seen) rest
        if (detect_auth sites (get_main_domain (parts.headD "")) (parts.getD 5 "")).isSome
        then (line :: r.1, r.2)
        else r

/-- The deduplication skeleton of the selection loop, used to factor the
output of clean: the valid (at least 7 fields) lines whose key is a
first occurrence, in order. -/
def firstOccAux (seen : List String) : List String → List String
  | [] => []
  | line :: rest =>
    let parts := pySplitCh '\t' line
    if parts.length < 7 then firstOccAux seen rest
    else
      let key := parts.headD "" ++ "|" ++ parts.getD 5 ""
      if seen.contains key then firstOccAux seen rest
      else line :: firstOccAux (key :: seen) rest

/-- Whether the auth detector accepts a line, per the selection loop. -/
def lineAuthMatched (sites : Sites) (line : String) : Bool :=
  let parts := pySplitCh '\t' line
  (detect_auth sites (get_main_domain (parts.headD "")) (parts.getD 5 "")).isSome

/-! ## Metrics (oldest cookie age, tracking count, privacy score) -/

/-- Age bucketing of `calculate_oldest_cookie_age`, on the day count
`(current_time - oldest_timestamp).days` (Python floor division). -/
def ageBucket (age_days : Int) : String :=
  if age_days < 1 then "Less than 1 day"
  else if age_days < 30 then toString age_days ++ " days"
  else if age_days < 365 then toString (Int.fdiv age_days 30) ++ " months"
  else toString (Int.fdiv age_days 365) ++ " years"

/-- The last UNIX second that `datetime.fromtimestamp` can represent,
9999-12-31T23:59:59 UTC: for any larger timestamp the datetime
constructor raises ValueError (year out of range), which the loop in
`calculate_oldest_cookie_age` catches. -/
def DATETIME_MAX_TS : Int := 253402300799

/-- The running-minimum loop of `calculate_oldest_cookie_age`: track the
smallest positive expiry timestamp (field 4) over all lines with at
least 5 fields.  Unparseable expiry fields raise ValueError from int()
and are skipped; positive timestamps past the datetime range raise
ValueError from `datetime.fromtimestamp` and are likewise skipped, both
through the same caught-exception branch.  Timestamps so large that the
platform time conversion itself fails abort the program with an
uncaught error; this total loop skips them too, and `oldestLoopExc`
below models that abort explicitly. -/
def oldestLoop (acc : Option Int) : List String → Option Int
  | [] => acc
  | line :: rest =>
    let parts := pySplitCh '\t' (pyStrip line)
    if 5 ≤ parts.length then
      match pyInt? (parts.getD 4 "") with
      | some ts =>
        if 0 < ts then
          if ts ≤ DATETIME_MAX_TS then
            match acc with
            | none => oldestLoop (some ts) rest
            | some old => oldestLoop (some (if ts < old then ts else old)) rest
          else oldestLoop acc rest
        else oldestLoop acc rest
      | none => oldestLoop acc rest
    else oldestLoop acc rest

/-- Embedding of `calculate_oldest_cookie_age`; `now` is the current UTC
time in seconds.  Faithful to the program whenever no expiry exceeds
the platform time-conversion limit; past that limit the program aborts
with an uncaught OSError or OverflowError (see `oldestLoopExc`). -/
def calculate_oldest_cookie_age (now : Int) (lines : List String) : String :=
  match oldestLoop none lines with
  | some oldest => ageBucket (Int.fdiv (now - oldest) 86400)
  | none => "Unknown"

/-- Exception-aware running-minimum loop: `platformMax` is the largest
timestamp the platform C time conversion accepts (platform dependent,
at least `DATETIME_MAX_TS`).  A positive expiry within the datetime
range is tracked; one past the datetime range but platform-convertible
raises ValueError, is caught, and the line is skipped; one past
`platformMax` makes `time.gmtime` fail with OSError or OverflowError,
which the `except (ValueError, IndexError)` clause does not catch, so
the whole call aborts. -/
def oldestLoopExc (platformMax : Int) (acc : Option Int) :
    List String → Except PyErr (Option Int)
  | [] => .ok acc
  | line :: rest =>
    let parts := pySplitCh '\t' (pyStrip line)
    if 5 ≤ parts.length then
      match pyInt? (parts.getD 4 "") with
      | some ts =>
        if 0 < ts then
          if ts ≤ DATETIME_MAX_TS then
            match acc with
            | none => oldestLoopExc platformMax (some ts) rest
            | some old =>
              oldestLoopExc platformMax (some (if ts < old then ts else old)) rest
          else if ts ≤ platformMax then oldestLoopExc platformMax acc rest
          else .error .osError
        else oldestLoopExc platformMax acc rest
      | none => oldestLoopExc platformMax acc rest
    else oldestLoopExc platformMax acc rest

/-- The fixed tracker name fragments of `count_tracking_cookies`, copied
in source order. -/
def tracking_patterns : List String :=
  [ "_ga", "_gid", "_gat", "__utma", "__utmb", "__utmc", "__utmz"
  , "_fbp", "_fbc", "fr"
  , "_tt_enable_cookie", "_ttp"
  , "mbox", "AMCV_", "s_cc", "s_sq", "s_vi"
  , "utag_main", "_utma", "_utmb", "_utmc", "_utmz"
  , "mp_", "__mp"
  , "amplitude_id"
  , "ajs_user_id", "ajs_anonymous_id"
  , "_hjid", "_hjClosedSurveyInvites"
  , "intercom-id-", "intercom-session-"
  , "zendesk_"
  , "drift_"
  , "hsCtaTracking", "_hstc", "_hssc"
  ]

/-- Embedding of `count_tracking_cookies`: count (without dedup) the
lines with at least 6 fields whose lower-cased cookie name contains any
lower-cased tracker fragment. -/
def count_tracking_cookies (lines : List String) : Nat :=
  (lines.filter (fun line =>
    let parts := pySplitCh '\t' (pyStrip line)
    6 ≤ parts.length &&
      tracking_patterns.any (fun pat =>
        strContains (pyLower pat) (pyLower (parts.getD 5 ""))))).length

/-- Round a rational to the nearest integer, ties to even, modelling
Python round() on the exact value. -/
def roundHalfToEven (q : ℚ) : ℤ :=
  let f := ⌊q⌋
  let r := q - (f : ℚ)
  if r < 1 / 2 then f
  else if 1 / 2 < r then f + 1
  else if 2 ∣ f then f else f + 1

/-- Model of Python `round(x, 1)` on the exact rational value. -/
def pyRound1 (q : ℚ) : ℚ :=
  (roundHalfToEven (q * 10) : ℚ) / 10

/-- Embedding of `calculate_privacy_score`, computed on exact rationals:
10.0 when there was nothing to clean, otherwise
`round((1 - cleaned/total) * 10, 1)`. -/
def calculate_privacy_score (cleaned_count total_count : Nat) : ℚ :=
  if total_count = 0 then 10
  else pyRound1 ((1 - (cleaned_count : ℚ) / (total_count : ℚ)) * 10)

/-! ## Services listing and the aggregate Result -/

/-- The fixed display order used when sorting the services lists. -/
def displayOrder : List String :=
  [ "search", "gmail", "youtube", "other", "shopping", "marketplace"
  , "twitter", "facebook", "tiktok", "reddit", "linkedin", "github"
  , "discord", "twitch", "netflix", "spotify" ]

/-- The sort key `order.index(x) if x in order else 99`. -/
def orderKey (x : String) : Nat :=
  match displayOrder.indexOf? x with
  | some i => i
  | none => 99

/-- Stable sort by the display-order key, modelling Python sorted(). -/
def sortByOrder (l : List String) : List String :=
  l.insertionSort (fun a b => orderKey a ≤ orderKey b)

/-- Keep the first occurrence of every element, dropping the
duplicates: the membership-faithful model of building a Python set from
a list. -/
def dedupFirstAux (seen : List String) : List String → List String
  | [] => []
  | x :: xs =>
    if seen.contains x then dedupFirstAux seen xs
    else x :: dedupFirstAux (x :: seen) xs

def dedupFirst (l : List String) : List String :=
  dedupFirstAux [] l

/-- Embedding of the services aggregation in `clean_cookies`: for every
counted site, the detected non-empty service labels, unioned with the
configured services when the site is in the catalog, sorted by the
display order. -/
def services_dict (sites : Sites) (P : ParseState) : List (String × List String) :=
  P.site_counter.map (fun p =>
    let site := p.1
    let detected := ((lookupD P.service_counter site []).map Prod.fst).filter (fun s => s ≠ "")
    match sites.find? (fun q => q.1 == site) with
    | some q => (site, sortByOrder (dedupFirst (detected ++ q.2.services.map Prod.fst)))
    | none => (site, sortByOrder detected))

/-- Stable descending sort by count, modelling `Counter.most_common()`. -/
def mostCommonSort (m : List (String × Nat)) : List (String × Nat) :=
  m.insertionSort (fun a b => b.2 ≤ a.2)

/-- The Result dict returned by `clean_cookies`. -/
structure CleanResult where
  sites : List (String × Nat)
  services : List (String × List String)
  auth_detected : List (String × List String)
  total_cleaned : Nat
  total_unique_cookies : Nat
  unique_sites : Nat
  most_common_site : String
  oldest_cookie_age : String
  tracking_intensity : Nat
  privacy_score : ℚ

/-- The pure core of `clean_cookies` given the raw lines of the input
file: runs the parser, the selection loop and the metrics, and builds
the Result; also returns the lines written to the output file. -/
def cleanStats (sites : Sites) (now : Int) (raws : List String) :
    CleanResult × List String :=
  let all_lines := prepLines raws
  let P := parseLines sites raws
  let cs := cleanLoop sites [] all_lines
  let cleaned_lines := cs.1
  let total_unique := cs.2.length
  let sorted := mostCommonSort P.site_counter
  let most_common_site :=
    match sorted.head? with
    | some p => p.1 ++ " (" ++ toString p.2 ++ " times)"
    | none => "None"
  (⟨ sorted
   , services_dict sites P
   , P.auth_detected
   , cleaned_lines.length
   , total_unique
   , P.site_counter.length
   , most_common_site
   , calculate_oldest_cookie_age now all_lines
   , count_tracking_cookies all_lines
   , calculate_privacy_score cleaned_lines.length total_unique ⟩
  , cleaned_lines)

/-- The content of the output file: every kept line, newline-terminated. -/
def outputContent (cleaned_lines : List String) : String :=
  String.join (cleaned_lines.map (fun l => l ++ "\n"))

/-- Embedding of `clean_cookies`.  When the input file is missing, the
source hits `logger.error(f"File not found: {file_path}")` inside the
FileNotFoundError handler, and the name `file_path` is not defined in
that scope (the parameter is named `input_file_path`), so the call dies
with a NameError carrying the undefined name instead of re-raising the
FileNotFoundError with the path. -/
def clean_cookies (sites : Sites) (now : Int) (fs : String → Option (List String))
    (input_file_path : String) : Except PyErr (CleanResult × String) :=
  match fs input_file_path with
  | none => .error (.nameError "file_path")
  | some raws =>
    let r := cleanStats sites now raws
    .ok (r.1, outputContent r.2)

/-! ## Scoring engine (calculate_category_bonuses, calculate_score) -/

/-- The CATEGORY_SCORES table of cleaner.py, copied in source order. -/
def CATEGORY_SCORES : List (String × List String) :=
  [ ("social", ["facebook", "instagram", "x", "tiktok", "discord"])
  , ("entertainment", ["netflix", "spotify", "twitch", "youtube"])
  , ("professional", ["linkedin", "github"])
  , ("shopping", ["amazon", "ebay", "paypal"])
  , ("search", ["google"])
  ]

/-- Model of `len(set(a) & set(b))`: the number of distinct elements of
`a` that occur in `b`. -/
def setInterCard (a b : List String) : Nat :=
  ((dedupFirst a).filter (fun x => b.contains x)).length

/-- The keys of a Counter, modelling iteration and `in` on it. -/
def counterKeys (m : List (String × Nat)) : List String :=
  m.map Prod.fst

/-- Embedding of `calculate_category_bonuses`: the four combination
bonuses appended in source order, each independently checked against the
site counter. -/
def calculate_category_bonuses (site_counter : List (String × Nat)) : List String :=
  (if 3 ≤ setInterCard (lookupD CATEGORY_SCORES "social" []) (counterKeys site_counter)
   then ["Social butterfly (+2)"] else [])
  ++ (if (counterKeys site_counter).contains "linkedin"
        && (counterKeys site_counter).contains "github"
      then ["Tech professional (+3)"] else [])
  ++ (if 2 ≤ setInterCard (lookupD CATEGORY_SCORES "entertainment" [])
        (counterKeys site_counter)
      then ["Entertainment addict (+1)"] else [])
  ++ (if 2 ≤ setInterCard (lookupD CATEGORY_SCORES "shopping" []) (counterKeys site_counter)
      then ["Shopaholic (+2)"] else [])

/-- The scoring rule table (SCORING_RULES), loaded from the external
config.json, kept parametric. -/
structure ScoringRules where
  sites : List (String × Int)
  services : List (String × List (String × Int))
  auth_bonus : Int
  levels : List (String × Int)

/-- The running state of `add_score`: the total and the reasons list. -/
structure ScoreAcc where
  score : Int
  reasons : List String
deriving DecidableEq, Repr

/-- Embedding of the nested `add_score` helper:
`score += points; score_reasons.append(f"+{points} {reason}")`. -/
def addScore (st : ScoreAcc) (points : Int) (reason : String) : ScoreAcc :=
  ⟨st.score + points, st.reasons ++ ["+" ++ toString points ++ " " ++ reason]⟩

/-- The site-points pass of `calculate_score`. -/
def sitesSegment (rules : List (String × Int)) (site_counter : List (String × Nat))
    (st : ScoreAcc) : ScoreAcc :=
  rules.foldl (fun st p =>
    if (counterKeys site_counter).contains p.1 then
      addScore st p.2 (pyCapitalize (pyReplace p.1 ".com" "") ++ " cookies")
    else st) st

/-- Model of `bonus.split(" (")[0]`. -/
def parseBonusName (b : String) : String :=
  (pySplitStr " (" b).headD b

/-- Model of `int(bonus.split("(+")[1].rstrip(")"))`; the default 0 is
never reached on the strings `calculate_category_bonuses` produces. -/
def parseBonusPts (b : String) : Int :=
  (pyInt? (pyRstripCh ')' ((pySplitStr "(+" b).getD 1 ""))).getD 0

/-- One iteration of the category-bonus loop of `calculate_score`:
when the bonus string holds both parentheses, parse the points and the
name back out of it and add them. -/
def bonusStep (st : ScoreAcc) (b : String) : ScoreAcc :=
  if strContains "(" b && strContains ")" b then
    addScore st (parseBonusPts b) (parseBonusName b)
  else st

/-- The category-bonus pass of `calculate_score`. -/
def bonusSegment (st : ScoreAcc) (site_counter : List (String × Nat)) : ScoreAcc :=
  (calculate_category_bonuses site_counter).foldl bonusStep st

/-- The service-points pass of `calculate_score`. -/
def servicesSegment (rules : List (String × List (String × Int)))
    (site_counter : List (String × Nat))
    (service_counter : List (String × List (String × Nat))) (st : ScoreAcc) : ScoreAcc :=
  rules.foldl (fun st p =>
    if (counterKeys site_counter).contains p.1 then
      p.2.foldl (fun st sv =>
        if (counterKeys (lookupD service_counter p.1 [])).contains sv.1 then
          addScore st sv.2 (pyCapitalize sv.1 ++ " detected")
        else st) st
    else st) st

/-- The auth-bonus pass of `calculate_score`: a single fixed bonus when
the auth dict is non-empty. -/
def authSegment (auth_bonus : Int) (auth_detected : List (String × List String))
    (st : ScoreAcc) : ScoreAcc :=
  if auth_detected ≠ [] then addScore st auth_bonus "AUTH cookies detected" else st

/-- Embedding of the level loop: the first level whose min_score the
final score reaches, defaulting to "LOW". -/
def pickLevel (levels : List (String × Int)) (score : Int) : String :=
  match levels.find? (fun p => score ≥ p.2) with
  | some p => p.1
  | none => "LOW"

/-- Embedding of `calculate_score`: the four passes in source order,
then the level. -/
def calculate_score (rules : ScoringRules) (site_counter : List (String × Nat))
    (service_counter : List (String × List (String × Nat)))
    (auth_detected : List (String × List String)) : Int × String × List String :=
  let st1 := sitesSegment rules.sites site_counter ⟨0, []⟩
  let st2 := bonusSegment st1 site_counter
  let st3 := servicesSegment rules.services site_counter service_counter st2
  let st4 := authSegment rules.auth_bonus auth_detected st3
  (st4.score, pickLevel rules.levels st4.score, st4.reasons)

/-! Claim-side definitions for C4, written from the words of the claim:
the four fixed sets, the four membership conditions, and the order and
point values of the bonuses. -/

/-- Claim-side count of how many of the given fixed sites are among the
counted sites. -/
def countPresent (fixed : List String) (site_counter : List (String × Nat)) : Nat :=
  (fixed.filter (fun s => (site_counter.map Prod.fst).contains s)).length

def socialApplies (site_counter : List (String × Nat)) : Bool :=
  3 ≤ countPresent ["facebook", "instagram", "x", "tiktok", "discord"] site_counter

def professionalApplies (site_counter : List (String × Nat)) : Bool :=
  (site_counter.map Prod.fst).contains "linkedin"
    && (site_counter.map Prod.fst).contains "github"

def entertainmentApplies (site_counter : List (String × Nat)) : Bool :=
  2 ≤ countPresent ["netflix", "spotify", "twitch", "youtube"] site_counter

def shoppingApplies (site_counter : List (String × Nat)) : Bool :=
  2 ≤ countPresent ["amazon", "ebay", "paypal"] site_counter

/-- Claim-side total of the applicable bonus points, in the fixed order
social, professional, entertainment, shopping. -/
def bonusPointsSpec (site_counter : List (String × Nat)) : Int :=
  (if socialApplies site_counter then 2 else 0)
  + (if professionalApplies site_counter then 3 else 0)
  + (if entertainmentApplies site_counter then 1 else 0)
  + (if shoppingApplies site_counter then 2 else 0)

/-- Claim-side reasons of the applicable bonuses, one per applicable
bonus, in the fixed order social, professional, entertainment, shopping. -/
def bonusReasonsSpec (site_counter : List (String × Nat)) : List String :=
  (if socialApplies site_counter then ["+2 Social butterfly"] else [])
  ++ (if professionalApplies site_counter then ["+3 Tech professional"] else [])
  ++ (if entertainmentApplies site_counter then ["+1 Entertainment addict"] else [])
  ++ (if shoppingApplies site_counter then ["+2 Shopaholic"] else [])

/-! Claim-side definitions for C9: the expiry extraction and the bucket
function written from the words of the claim. -/

/-- Claim-side list of the positive expiry timestamps: field 4 of every
line with at least 5 tab-separated fields, when it parses as an integer,
keeping the positive ones. -/
def positiveExpiries (lines : List String) : List Int :=
  (lines.filterMap (fun line =>
    let parts := pySplitCh '\t' (pyStrip line)
    if 5 ≤ parts.length then pyInt? (parts.getD 4 "") else none)).filter (fun ts => 0 < ts)

/-- The claim as stated: Unknown when no valid positive timestamp
exists, otherwise the bucket of the day count of now minus the minimum
of ALL positive expiries.  The program does not satisfy this (see the
counterexample for C9): it skips positive expiries past the datetime
range. -/
def oldestAgeSpec (now : Int) (lines : List String) : String :=
  match (positiveExpiries lines).min? with
  | none => "Unknown"
  | some oldest =>
    let age_days := Int.fdiv (now - oldest) 86400
    if age_days < 1 then "Less than 1 day"
    else if age_days < 30 then toString age_days ++ " days"
    else if age_days < 365 then toString (Int.fdiv age_days 30) ++ " months"
    else toString (Int.fdiv age_days 365) ++ " years"

/-- The expiries the amended claim tracks: the positive ones that do
not exceed the datetime range. -/
def trackedExpiries (lines : List String) : List Int :=
  (positiveExpiries lines).filter (fun ts => ts ≤ DATETIME_MAX_TS)

/-- Claim-side oldest-cookie age, amended: Unknown when no tracked
timestamp exists, otherwise the bucket of the day count of now minus
the minimum tracked expiry. -/
def oldestAgeSpecAmended (now : Int) (lines : List String) : String :=
  match (trackedExpiries lines).min? with
  | none => "Unknown"
  | some oldest =>
    let age_days := Int.fdiv (now - oldest) 86400
    if age_days < 1 then "Less than 1 day"
    else if age_days < 30 then toString age_days ++ " days"
    else if age_days < 365 then toString (Int.fdiv age_days 30) ++ " months"
    else toString (Int.fdiv age_days 365) ++ " years"

/-- The (domain, cookie-name) pair of a line: fields 0 and 5. -/
def linePair (line : String) : String × String :=
  let parts := pySplitCh '\t' line
  (parts.headD "", parts.getD 5 "")

/-- The auth patterns configured in the catalog for a main domain
(empty when the domain is not in the catalog). -/
def sitesAuth (sites : Sites) (main_domain : String) : List String :=
  match sites.find? (fun p => p.1 == main_domain) with
  | some p => p.2.auth
  | none => []

/-- The detected service labels of a site: the keys of its service
Counter built by the parser. -/
def detectedLabels (sites : Sites) (raws : List String) (site : String) : List String :=
  (lookupD (parseLines sites raws).service_counter site []).map Prod.fst

instance : IsTotal String (fun a b => orderKey a ≤ orderKey b) :=
  ⟨fun a b => Nat.le_total (orderKey a) (orderKey b)⟩

instance : IsTrans String (fun a b => orderKey a ≤ orderKey b) :=
  ⟨fun _ _ _ hab hbc => Nat.le_trans hab hbc⟩

/-! ## Sample data for the witnesses -/

/-- A small concrete catalog used by the witnesses. -/
def sampleSites : Sites :=
  [("facebook", ⟨[("facebook", ["facebook"])], ["c_user", "xs"]⟩)]

/-- Sample raw input lines: a facebook auth cookie, a duplicate of it
with a different value, a non-auth cookie and a malformed line. -/
def sampleRaws : List String :=
  [ "facebook.com\tTRUE\t/\tFALSE\t0\tc_user\tvalue1"
  , "facebook.com\tTRUE\t/\tFALSE\t0\tc_user\tvalue2"
  , "facebook.com\tTRUE\t/\tFALSE\t0\tmisc\tvalue3"
  , "bad\tline"
  ]

/-! ## Helper lemmas for the normalizer equivalence -/

theorem find?_eq_firstRuleMatch (rules : List (String × List String)) (d : String) :
    (rules.find? (fun p => p.2.any (fun pat => strContains pat d))).map Prod.fst
      = firstRuleMatch rules d := by
  induction rules with
  | nil => rfl
  | cons hd tl ih =>
    rcases hd with ⟨name, pats⟩
    by_cases h : (pats.any (fun pat => strContains pat d)) = true
    · simp [List.find?, firstRuleMatch, h]
    · simp only [Bool.not_eq_true] at h
      simp [List.find?, firstRuleMatch, h, ih]

theorem splitChAux_ne_nil (sep : Char) (l : List Char) : splitChAux sep l ≠ [] := by
  induction l with
  | nil => simp [splitChAux]
  | cons c cs ih =>
    simp only [splitChAux]
    by_cases h : (c == sep) = true
    · simp [h]
    · simp only [Bool.not_eq_true] at h
      simp only [h]
      cases hr : splitChAux sep cs with
      | nil => exact absurd hr ih
      | cons a b => simp

theorem pySplitCh_ne_nil (sep : Char) (s : String) : pySplitCh sep s ≠ [] := by
  unfold pySplitCh
  intro h
  exact splitChAux_ne_nil sep s.data (List.map_eq_nil_iff.mp h)

theorem pyJoin_pair (a b : String) : pyJoin "." [a, b] = a ++ "." ++ b := rfl

theorem drop_length_sub_two {α : Type} (init : List α) (a b : α) :
    (init ++ [a, b]).drop ((init ++ [a, b]).length - 2) = [a, b] := by
  have hlen : (init ++ [a, b]).length = init.length + 2 := by
    simp [List.length_append]
  rw [hlen]
  simp only [Nat.add_sub_cancel]
  rw [List.drop_left' rfl]

theorem lastTwoLabels_eq (d : String) :
    (if 2 ≤ (pySplitCh '.' d).length then
       pyJoin "." ((pySplitCh '.' d).drop ((pySplitCh '.' d).length - 2))
     else d) = lastTwoLabels d := by
  unfold lastTwoLabels
  cases hrev : (pySplitCh '.' d).reverse with
  | nil =>
    have : pySplitCh '.' d = [] := by
      have := congrArg List.reverse hrev
      simpa using this
    exact absurd this (pySplitCh_ne_nil '.' d)
  | cons b rest =>
    cases rest with
    | nil =>
      have hparts : pySplitCh '.' d = [b] := by
        have := congrArg List.reverse hrev
        simpa using this
      rw [if_neg (by rw [hparts]; simp)]
    | cons a t =>
      have hparts : pySplitCh '.' d = t.reverse ++ [a, b] := by
        have := congrArg List.reverse hrev
        simpa using this
      rw [if_pos (by
        rw [hparts]
        simp only [List.length_append, List.length_cons, List.length_nil]
        omega)]
      rw [hparts, drop_length_sub_two, pyJoin_pair]

/-! ## C5 and C6 -/

/-- Claim C5: get_main_domain strips leading dots and lower-cases the domain,
then evaluates the ordered rule list top to bottom returning the
canonical name of the first rule any of whose patterns is a substring
(first-match-wins, order preserved), and for every domain matching no
rule it returns the last two dot-separated labels joined by a dot. -/
theorem get_main_domain_refines_spec (d : String) :
    get_main_domain d = normalize_spec d := by
  have key := find?_eq_firstRuleMatch domain_mappings (lstripDots (pyLower d))
  simp only [get_main_domain, normalize_spec]
  rw [← key]
  cases hf : List.find? (fun p => p.2.any fun pat => strContains pat (lstripDots (pyLower d)))
      domain_mappings with
  | none =>
    simpa using lastTwoLabels_eq (lstripDots (pyLower d))
  | some p =>
    simp

theorem charOfNat_toNat {n : Nat} (h : n.isValidChar) : (Char.ofNat n).toNat = n := by
  rw [Char.ofNat, dif_pos h]
  rfl

theorem toLower_toLower (c : Char) : c.toLower.toLower = c.toLower := by
  unfold Char.toLower
  by_cases h : c.toNat ≥ 65 ∧ c.toNat ≤ 90
  · rw [if_pos h]
    have hv : (c.toNat + 32).isValidChar := Or.inl (by omega)
    rw [if_neg (by rw [charOfNat_toNat hv]; omega)]
  · rw [if_neg h, if_neg h]

theorem pyLower_pyLower (s : String) : pyLower (pyLower s) = pyLower s := by
  unfold pyLower
  simp only [List.map_map]
  congr 1
  exact List.map_congr_left (fun c _ => toLower_toLower c)

/-- Claim C6: get_main_domain is a pure deterministic function of its input
(two applications to the same string agree definitionally) and is
case-insensitive: it is invariant under lower-casing its argument, in
particular on "Facebook.com" versus "facebook.com". -/
theorem get_main_domain_deterministic_case_insensitive (d : String) :
    get_main_domain d = get_main_domain d
      ∧ get_main_domain d = get_main_domain (pyLower d)
      ∧ get_main_domain "Facebook.com" = get_main_domain "facebook.com" := by
  refine ⟨rfl, ?_, by decide⟩
  unfold get_main_domain
  rw [pyLower_pyLower]

/-! ## Lemmas about the selection loop and the parser -/

theorem contains_iff_mem (l : List String) (x : String) :
    l.contains x = true ↔ x ∈ l := by
  simp [List.contains_iff_exists_mem_beq, beq_iff_eq, eq_comm]

theorem cleanLoop_fst (sites : Sites) (seen lines : List String) :
    (cleanLoop sites seen lines).1
      = (firstOccAux seen lines).filter (lineAuthMatched sites) := by
  induction lines generalizing seen with
  | nil => rfl
  | cons line rest ih =>
    simp only [cleanLoop, firstOccAux]
    by_cases h7 : (pySplitCh '\t' line).length < 7
    · simp only [if_pos h7]
      exact ih seen
    · simp only [if_neg h7]
      by_cases hc : seen.contains
          ((pySplitCh '\t' line).headD "" ++ "|" ++ (pySplitCh '\t' line).getD 5 "") = true
      · simp only [hc, if_true]
        exact ih seen
      · simp only [Bool.not_eq_true] at hc
        simp only [hc, Bool.false_eq_true, if_false, List.filter_cons]
        by_cases ha : lineAuthMatched sites line = true
        · have ha2 := ha
          unfold lineAuthMatched at ha2
          simp only [ha, ha2, if_true, if_pos]
          rw [ih]
        · have ha2 := ha
          unfold lineAuthMatched at ha2
          simp only [Bool.not_eq_true] at ha ha2
          simp only [ha, ha2, Bool.false_eq_true, if_false]
          exact ih _

theorem cleanLoop_snd_length (sites : Sites) (seen lines : List String) :
    (cleanLoop sites seen lines).2.length
      = seen.length + (firstOccAux seen lines).length := by
  induction lines generalizing seen with
  | nil => rfl
  | cons line rest ih =>
    simp only [cleanLoop, firstOccAux]
    by_cases h7 : (pySplitCh '\t' line).length < 7
    · simp only [if_pos h7]
      exact ih seen
    · simp only [if_neg h7]
      by_cases hc : seen.contains
          ((pySplitCh '\t' line).headD "" ++ "|" ++ (pySplitCh '\t' line).getD 5 "") = true
      · simp only [hc, if_true]
        exact ih seen
      · simp only [Bool.not_eq_true] at hc
        simp only [hc, Bool.false_eq_true, if_false, List.length_cons]
        by_cases ha : (detect_auth sites
            (get_main_domain ((pySplitCh '\t' line).headD ""))
            ((pySplitCh '\t' line).getD 5 "")).isSome = true
        · simp only [ha, if_true]
          rw [ih]
          simp only [List.length_cons]
          omega
        · simp only [Bool.not_eq_true] at ha
          simp only [ha, Bool.false_eq_true, if_false]
          rw [ih]
          simp only [List.length_cons]
          omega

theorem firstOccAux_sublist (seen lines : List String) :
    (firstOccAux seen lines).Sublist lines := by
  induction lines generalizing seen with
  | nil => simp [firstOccAux]
  | cons line rest ih =>
    simp only [firstOccAux]
    by_cases h7 : (pySplitCh '\t' line).length < 7
    · simp only [if_pos h7]
      exact (ih seen).cons line
    · simp only [if_neg h7]
      by_cases hc : seen.contains
          ((pySplitCh '\t' line).headD "" ++ "|" ++ (pySplitCh '\t' line).getD 5 "") = true
      · simp only [hc, if_true]
        exact (ih seen).cons line
      · simp only [Bool.not_eq_true] at hc
        simp only [hc, Bool.false_eq_true, if_false]
        exact (ih _).cons₂ line

theorem mem_firstOccAux_valid {seen lines : List String} {l : String}
    (h : l ∈ firstOccAux seen lines) : 7 ≤ (pySplitCh '\t' l).length := by
  induction lines generalizing seen with
  | nil => simp [firstOccAux] at h
  | cons line rest ih =>
    simp only [firstOccAux] at h
    by_cases h7 : (pySplitCh '\t' line).length < 7
    · simp only [if_pos h7] at h
      exact ih h
    · simp only [if_neg h7] at h
      by_cases hc : seen.contains
          ((pySplitCh '\t' line).headD "" ++ "|" ++ (pySplitCh '\t' line).getD 5 "") = true
      · simp only [hc, if_true] at h
        exact ih h
      · simp only [Bool.not_eq_true] at hc
        simp only [hc, Bool.false_eq_true, if_false, List.mem_cons] at h
        rcases h with h | h
        · subst h
          omega
        · exact ih h

theorem firstOccAux_keys (seen lines : List String) :
    ((firstOccAux seen lines).map lineKey).Nodup
      ∧ ∀ l ∈ firstOccAux seen lines, lineKey l ∉ seen := by
  induction lines generalizing seen with
  | nil => simp [firstOccAux]
  | cons line rest ih =>
    simp only [firstOccAux]
    by_cases h7 : (pySplitCh '\t' line).length < 7
    · simp only [if_pos h7]
      exact ih seen
    · simp only [if_neg h7]
      by_cases hc : seen.contains
          ((pySplitCh '\t' line).headD "" ++ "|" ++ (pySplitCh '\t' line).getD 5 "") = true
      · simp only [hc, if_true]
        exact ih seen
      · simp only [Bool.not_eq_true] at hc
        have hnm : ((pySplitCh '\t' line).headD "" ++ "|"
            ++ (pySplitCh '\t' line).getD 5 "") ∉ seen := by
          intro hm
          rw [← contains_iff_mem] at hm
          rw [hm] at hc
          simp at hc
        simp only [hc, Bool.false_eq_true, if_false]
        have hkey : lineKey line
            = (pySplitCh '\t' line).headD "" ++ "|" ++ (pySplitCh '\t' line).getD 5 "" := rfl
        obtain ⟨ihn, ihs⟩ := ih (((pySplitCh '\t' line).headD "" ++ "|"
          ++ (pySplitCh '\t' line).getD 5 "") :: seen)
        constructor
        · simp only [List.map_cons, List.nodup_cons]
          refine ⟨?_, ihn⟩
          intro hmem
          rcases List.mem_map.mp hmem with ⟨l2, hl2, hkeq⟩
          have hni := ihs l2 hl2
          rw [hkeq] at hni
          exact hni (by rw [hkey]; exact List.mem_cons_self _ _)
        · intro l hl
          rcases List.mem_cons.mp hl with h | h
          · rw [h, hkey]
            exact hnm
          · intro habs
            exact ihs l h (List.mem_cons_of_mem _ habs)

theorem sumCounts_bump (m : List (String × Nat)) (k : String) :
    sumCounts (bump m k) = sumCounts m + 1 := by
  induction m with
  | nil => rfl
  | cons hd tl ih =>
    rcases hd with ⟨k0, v⟩
    by_cases h : k0 = k
    · simp [bump, sumCounts, h]
      omega
    · simp only [bump, if_neg h]
      simp only [sumCounts, List.map_cons, List.sum_cons] at ih ⊢
      omega

theorem cleanLoop_snd_of_pair (line : String)
    (r : List String × List String) (b : Bool) :
    (if b then (line :: r.1, r.2) else r).2 = r.2 := by
  by_cases hb : b = true
  · simp [hb]
  · simp only [Bool.not_eq_true] at hb
    simp [hb]

theorem parse_seen_agree (sites : Sites) (raws : List String) (st : ParseState) :
    (raws.foldl (parseLine sites) st).seen
      = (cleanLoop sites st.seen (prepLines raws)).2 := by
  induction raws generalizing st with
  | nil => rfl
  | cons raw rest ih =>
    simp only [List.foldl_cons, prepLines, List.map_cons, List.filter_cons]
    by_cases hb : pyStrip raw = ""
    · have hp : (decide (pyStrip raw ≠ "")) = false := by simp [hb]
      rw [hp]
      simp only [Bool.false_eq_true, if_false]
      have hstep : parseLine sites st raw = st := by
        simp [parseLine, hb]
      rw [hstep]
      simpa [prepLines] using ih st
    · have hp : (decide (pyStrip raw ≠ "")) = true := by simp [hb]
      rw [hp]
      simp only [if_true]
      simp only [cleanLoop]
      by_cases h7 : (pySplitCh '\t' (pyStrip raw)).length < 7
      · have hstep : parseLine sites st raw = st := by
          simp [parseLine, hb, h7]
        rw [hstep, if_pos h7]
        simpa [prepLines] using ih st
      · rw [if_neg h7]
        by_cases hc : st.seen.contains ((pySplitCh '\t' (pyStrip raw)).headD "" ++ "|"
            ++ (pySplitCh '\t' (pyStrip raw)).getD 5 "") = true
        · have hstep : parseLine sites st raw = st := by
            simp only [parseLine]
            rw [if_neg hb, if_neg h7, if_pos hc]
          rw [hstep, if_pos hc]
          simpa [prepLines] using ih st
        · rw [if_neg hc]
          rw [cleanLoop_snd_of_pair]
          have hseen : (parseLine sites st raw).seen
              = ((pySplitCh '\t' (pyStrip raw)).headD "" ++ "|"
                ++ (pySplitCh '\t' (pyStrip raw)).getD 5 "") :: st.seen := by
            simp only [parseLine]
            rw [if_neg hb, if_neg h7, if_neg hc]
          have hrec := ih (parseLine sites st raw)
          rw [hseen] at hrec
          simpa [prepLines] using hrec

theorem not_mem_of_contains_ne_true {l : List String} {x : String}
    (h : ¬ l.contains x = true) : x ∉ l :=
  fun hm => h ((contains_iff_mem l x).mpr hm)

theorem parse_sum_agree (sites : Sites) (raws : List String) (st : ParseState) :
    sumCounts (raws.foldl (parseLine sites) st).site_counter + st.seen.length
      = sumCounts st.site_counter + (raws.foldl (parseLine sites) st).seen.length := by
  induction raws generalizing st with
  | nil => rfl
  | cons raw rest ih =>
    simp only [List.foldl_cons]
    by_cases hb : pyStrip raw = ""
    · rw [show parseLine sites st raw = st by simp [parseLine, hb]]
      exact ih st
    · by_cases h7 : (pySplitCh '\t' (pyStrip raw)).length < 7
      · rw [show parseLine sites st raw = st by simp [parseLine, hb, h7]]
        exact ih st
      · by_cases hc : st.seen.contains ((pySplitCh '\t' (pyStrip raw)).headD "" ++ "|"
            ++ (pySplitCh '\t' (pyStrip raw)).getD 5 "") = true
        · rw [show parseLine sites st raw = st by
            simp only [parseLine]
            rw [if_neg hb, if_neg h7, if_pos hc]]
          exact ih st
        · have hseen : (parseLine sites st raw).seen
              = ((pySplitCh '\t' (pyStrip raw)).headD "" ++ "|"
                ++ (pySplitCh '\t' (pyStrip raw)).getD 5 "") :: st.seen := by
            simp only [parseLine]
            rw [if_neg hb, if_neg h7, if_neg hc]
          have hsite : (parseLine sites st raw).site_counter
              = bump st.site_counter
                  (get_main_domain ((pySplitCh '\t' (pyStrip raw)).headD "")) := by
            simp only [parseLine]
            rw [if_neg hb, if_neg h7, if_neg hc]
          have hih := ih (parseLine sites st raw)
          have h1 : (parseLine sites st raw).seen.length = st.seen.length + 1 := by
            rw [hseen]
            rfl
          have h2 : sumCounts (parseLine sites st raw).site_counter
              = sumCounts st.site_counter + 1 := by
            rw [hsite, sumCounts_bump]
          omega

theorem parse_seen_nodup (sites : Sites) (raws : List String) (st : ParseState)
    (h : st.seen.Nodup) : (raws.foldl (parseLine sites) st).seen.Nodup := by
  induction raws generalizing st with
  | nil => exact h
  | cons raw rest ih =>
    simp only [List.foldl_cons]
    by_cases hb : pyStrip raw = ""
    · rw [show parseLine sites st raw = st by simp [parseLine, hb]]
      exact ih st h
    · by_cases h7 : (pySplitCh '\t' (pyStrip raw)).length < 7
      · rw [show parseLine sites st raw = st by simp [parseLine, hb, h7]]
        exact ih st h
      · by_cases hc : st.seen.contains ((pySplitCh '\t' (pyStrip raw)).headD "" ++ "|"
            ++ (pySplitCh '\t' (pyStrip raw)).getD 5 "") = true
        · rw [show parseLine sites st raw = st by
            simp only [parseLine]
            rw [if_neg hb, if_neg h7, if_pos hc]]
          exact ih st h
        · apply ih
          have hseen : (parseLine sites st raw).seen
              = ((pySplitCh '\t' (pyStrip raw)).headD "" ++ "|"
                ++ (pySplitCh '\t' (pyStrip raw)).getD 5 "") :: st.seen := by
            simp only [parseLine]
            rw [if_neg hb, if_neg h7, if_neg hc]
          rw [hseen]
          exact List.nodup_cons.mpr ⟨not_mem_of_contains_ne_true hc, h⟩

theorem parseLine_skip (sites : Sites) (st : ParseState) (raw : String)
    (h : lineKey (pyStrip raw) ∈ st.seen) : parseLine sites st raw = st := by
  by_cases hb : pyStrip raw = ""
  · simp [parseLine, hb]
  · by_cases h7 : (pySplitCh '\t' (pyStrip raw)).length < 7
    · simp [parseLine, hb, h7]
    · have hc : st.seen.contains ((pySplitCh '\t' (pyStrip raw)).headD "" ++ "|"
          ++ (pySplitCh '\t' (pyStrip raw)).getD 5 "") = true :=
        (contains_iff_mem _ _).mpr h
      simp only [parseLine]
      rw [if_neg hb, if_neg h7, if_pos hc]

/-! ## C8 -/

/-- Claim C8: the aggregate pass (parse_cookies) and the output-selection pass
inside clean_cookies deduplicate with the identical key and ordering:
their seen sets are equal as lists, each key occurs at most once, the
sum of the per-site counts of the parser equals the number of seen keys,
the total_unique_cookies of the Result equals that sum, and a line whose
key was already seen leaves the parser state unchanged (so two lines
with the same domain and cookie name are counted once). -/
theorem C8_dedup_passes_agree (sites : Sites) (now : Int) (raws : List String) :
    (parseLines sites raws).seen = (cleanLoop sites [] (prepLines raws)).2
    ∧ sumCounts (parseLines sites raws).site_counter = (parseLines sites raws).seen.length
    ∧ (cleanStats sites now raws).1.total_unique_cookies
        = sumCounts (parseLines sites raws).site_counter
    ∧ (parseLines sites raws).seen.Nodup
    ∧ ∀ (st : ParseState) (raw : String),
        lineKey (pyStrip raw) ∈ st.seen → parseLine sites st raw = st := by
  have hagree : (parseLines sites raws).seen = (cleanLoop sites [] (prepLines raws)).2 := by
    simpa [initState, parseLines] using parse_seen_agree sites raws initState
  have hsum := parse_sum_agree sites raws initState
  refine ⟨hagree, ?_, ?_, ?_, fun st raw h => parseLine_skip sites st raw h⟩
  · simpa [initState, sumCounts, parseLines] using hsum
  · have hsum2 : sumCounts (parseLines sites raws).site_counter
        = (parseLines sites raws).seen.length := by
      simpa [initState, sumCounts, parseLines] using hsum
    have htu : (cleanStats sites now raws).1.total_unique_cookies
        = (cleanLoop sites [] (prepLines raws)).2.length := rfl
    rw [htu, ← hagree, hsum2]
  · exact parse_seen_nodup sites raws initState (by simp [initState])

/-- Witness for C8 at a concrete input: the second line of sampleRaws
duplicates the key of the first, and the parser drops it: the parser
state after the first line absorbs the second line unchanged. -/
theorem C8_dedup_passes_agree_witness :
    parseLine sampleSites (parseLines sampleSites [sampleRaws.headD ""])
        (sampleRaws.getD 1 "")
      = parseLines sampleSites [sampleRaws.headD ""] := by
  apply (C8_dedup_passes_agree sampleSites 0 sampleRaws).2.2.2.2
  decide

theorem detect_auth_eq_some {sites : Sites} {md name a : String}
    (h : detect_auth sites md name = some a) :
    a ∈ sitesAuth sites md ∧ strContains (pyLower a) (pyLower name) = true := by
  unfold detect_auth at h
  unfold sitesAuth
  cases hf : sites.find? (fun p => p.1 == md) with
  | none =>
    rw [hf] at h
    dsimp only at h
    cases h
  | some p =>
    rw [hf] at h
    dsimp only at h
    have h1 := @List.mem_of_find?_eq_some _ _ _ _ h
    have h2 := @List.find?_some _ _ _ _ h
    exact ⟨h1, h2⟩

theorem cleanStats_output_eq (sites : Sites) (now : Int) (raws : List String) :
    (cleanStats sites now raws).2
      = (firstOccAux [] (prepLines raws)).filter (lineAuthMatched sites) := by
  have h0 : (cleanStats sites now raws).2 = (cleanLoop sites [] (prepLines raws)).1 := rfl
  rw [h0, cleanLoop_fst]

/-! ## C1 and C2 -/

/-- Claim C1: the (domain, cookie-name) pairs of the lines clean writes to the
output appear at most once, every written line is one of the input
lines, so its pair occurs among the input pairs, it has at least 7
fields, and its cookie name contains, case-insensitively, an auth
pattern configured in the catalog for its normalized main domain. -/
theorem C1_output_dedup_auth (sites : Sites) (now : Int) (raws : List String) :
    (((cleanStats sites now raws).2).map linePair).Nodup
    ∧ ∀ l ∈ (cleanStats sites now raws).2,
        l ∈ prepLines raws
        ∧ linePair l ∈ (prepLines raws).map linePair
        ∧ 7 ≤ (pySplitCh '\t' l).length
        ∧ ∃ a ∈ sitesAuth sites (get_main_domain ((pySplitCh '\t' l).headD "")),
            strContains (pyLower a) (pyLower ((pySplitCh '\t' l).getD 5 "")) = true := by
  constructor
  · rw [cleanStats_output_eq]
    have hkeysF := (firstOccAux_keys [] (prepLines raws)).1
    have hsub : ((firstOccAux [] (prepLines raws)).filter (lineAuthMatched sites)).Sublist
        (firstOccAux [] (prepLines raws)) := List.filter_sublist _
    have hkeys : (((firstOccAux [] (prepLines raws)).filter
        (lineAuthMatched sites)).map lineKey).Nodup := (hsub.map lineKey).nodup hkeysF
    have hmm : ((firstOccAux [] (prepLines raws)).filter (lineAuthMatched sites)).map lineKey
        = (((firstOccAux [] (prepLines raws)).filter
            (lineAuthMatched sites)).map linePair).map (fun p => p.1 ++ "|" ++ p.2) := by
      rw [List.map_map]
      exact List.map_congr_left (fun l _ => rfl)
    rw [hmm] at hkeys
    exact List.Nodup.of_map _ hkeys
  · intro l hl
    rw [cleanStats_output_eq] at hl
    have hlF : l ∈ firstOccAux [] (prepLines raws) := List.mem_of_mem_filter hl
    have hauth : lineAuthMatched sites l = true := List.of_mem_filter hl
    refine ⟨(firstOccAux_sublist _ _).subset hlF,
      List.mem_map_of_mem _ ((firstOccAux_sublist _ _).subset hlF),
      mem_firstOccAux_valid hlF, ?_⟩
    unfold lineAuthMatched at hauth
    rcases Option.isSome_iff_exists.mp hauth with ⟨a, ha⟩
    rcases detect_auth_eq_some ha with ⟨h1, h2⟩
    exact ⟨a, h1, h2⟩

/-- Witness for C1 at a concrete input: the kept facebook line is an
input line and its cookie name contains a configured auth pattern. -/
theorem C1_output_dedup_auth_witness :
    ("facebook.com\tTRUE\t/\tFALSE\t0\tc_user\tvalue1" : String) ∈ prepLines sampleRaws
    ∧ ∃ a ∈ sitesAuth sampleSites
        (get_main_domain ((pySplitCh '\t'
          ("facebook.com\tTRUE\t/\tFALSE\t0\tc_user\tvalue1" : String)).headD "")),
        strContains (pyLower a)
          (pyLower ((pySplitCh '\t'
            ("facebook.com\tTRUE\t/\tFALSE\t0\tc_user\tvalue1" : String)).getD 5 "")) = true := by
  have h := (C1_output_dedup_auth sampleSites 0 sampleRaws).2
    "facebook.com\tTRUE\t/\tFALSE\t0\tc_user\tvalue1" (by decide)
  exact ⟨h.1, h.2.2.2⟩

/-- Claim C2: for an existing input file, clean returns the Result and writes
exactly the auth-matched deduplicated lines, each newline-terminated,
and those lines are a verbatim, order-preserving subset of the stripped
input lines (no field rewriting). -/
theorem C2_output_verbatim (sites : Sites) (now : Int)
    (fs : String → Option (List String)) (path : String) (raws : List String)
    (h : fs path = some raws) :
    clean_cookies sites now fs path
      = .ok ((cleanStats sites now raws).1,
          String.join (((firstOccAux [] (prepLines raws)).filter
            (lineAuthMatched sites)).map (fun l => l ++ "\n")))
    ∧ ((firstOccAux [] (prepLines raws)).filter (lineAuthMatched sites)).Sublist
        (prepLines raws) := by
  constructor
  · simp only [clean_cookies, h]
    rw [← cleanStats_output_eq sites now raws]
    rfl
  · exact (List.filter_sublist _).trans (firstOccAux_sublist _ _)

/-- Witness for C2 at a concrete input. -/
theorem C2_output_verbatim_witness :
    clean_cookies sampleSites 0 (fun _ => some sampleRaws) "cookies.txt"
      = .ok ((cleanStats sampleSites 0 sampleRaws).1,
          String.join (((firstOccAux [] (prepLines sampleRaws)).filter
            (lineAuthMatched sampleSites)).map (fun l => l ++ "\n")))
    ∧ ((firstOccAux [] (prepLines sampleRaws)).filter
        (lineAuthMatched sampleSites)).Sublist (prepLines sampleRaws) :=
  C2_output_verbatim sampleSites 0 (fun _ => some sampleRaws) "cookies.txt" sampleRaws rfl

/-! ## C7: privacy score -/

theorem roundHalfToEven_mem {q : ℚ} (h0 : 0 ≤ q) (h1 : q ≤ 100) :
    0 ≤ roundHalfToEven q ∧ roundHalfToEven q ≤ 100 := by
  simp only [roundHalfToEven]
  have hf0 : 0 ≤ ⌊q⌋ := Int.floor_nonneg.mpr h0
  have hfq : (⌊q⌋ : ℚ) ≤ q := Int.floor_le q
  have hf100 : ⌊q⌋ ≤ 100 := by
    have h := Int.floor_le_floor h1
    have h2 : ⌊(100:ℚ)⌋ = 100 := by norm_num
    omega
  split_ifs with hr1 hr2 hdvd
  · exact ⟨hf0, hf100⟩
  · have h99 : ⌊q⌋ ≤ 99 := by
      have hhalf : (1:ℚ)/2 ≤ q - (⌊q⌋ : ℚ) := le_of_lt hr2
      have hlt : (⌊q⌋ : ℚ) < 100 := by linarith
      have : ⌊q⌋ < 100 := by exact_mod_cast hlt
      omega
    constructor <;> omega
  · exact ⟨hf0, hf100⟩
  · have h99 : ⌊q⌋ ≤ 99 := by
      have hhalf : (1:ℚ)/2 ≤ q - (⌊q⌋ : ℚ) := not_lt.mp hr1
      have hlt : (⌊q⌋ : ℚ) < 100 := by linarith
      have : ⌊q⌋ < 100 := by exact_mod_cast hlt
      omega
    constructor <;> omega

theorem pyRound1_bounds {q : ℚ} (h0 : 0 ≤ q) (h1 : q ≤ 10) :
    0 ≤ pyRound1 q ∧ pyRound1 q ≤ 10 := by
  unfold pyRound1
  have h0m : 0 ≤ q * 10 := by linarith
  have h1m : q * 10 ≤ 100 := by linarith
  obtain ⟨ha, hb⟩ := roundHalfToEven_mem h0m h1m
  constructor
  · apply div_nonneg
    · exact_mod_cast ha
    · norm_num
  · rw [div_le_iff₀ (by norm_num : (0:ℚ) < 10)]
    have hcast : ((roundHalfToEven (q * 10)) : ℚ) ≤ 100 := by exact_mod_cast hb
    linarith

theorem calculate_privacy_score_bounds (c t : Nat) (h : c ≤ t) :
    0 ≤ calculate_privacy_score c t ∧ calculate_privacy_score c t ≤ 10 := by
  unfold calculate_privacy_score
  by_cases ht : t = 0
  · rw [if_pos ht]
    norm_num
  · rw [if_neg ht]
    have htpos : (0:ℚ) < t := by exact_mod_cast Nat.pos_of_ne_zero ht
    have hratio0 : 0 ≤ (c:ℚ) / t := by positivity
    have hratio1 : (c:ℚ) / t ≤ 1 := by
      rw [div_le_one htpos]
      exact_mod_cast h
    exact pyRound1_bounds (by linarith) (by linarith)

theorem total_cleaned_le_unique (sites : Sites) (now : Int) (raws : List String) :
    (cleanStats sites now raws).1.total_cleaned
      ≤ (cleanStats sites now raws).1.total_unique_cookies := by
  have h1 : (cleanStats sites now raws).1.total_cleaned
      = (cleanLoop sites [] (prepLines raws)).1.length := rfl
  have h2 : (cleanStats sites now raws).1.total_unique_cookies
      = (cleanLoop sites [] (prepLines raws)).2.length := rfl
  rw [h1, h2, cleanLoop_fst, cleanLoop_snd_length]
  have h3 := List.length_filter_le (lineAuthMatched sites) (firstOccAux [] (prepLines raws))
  simp only [List.length_nil]
  omega

/-- Claim C7: the privacy score of the Result is the rounded value of
`(1 - cleaned/totalUnique) * 10`, the cleaned count never exceeds the
total unique count, a total unique count of 0 yields exactly 10.0, and
the score always lies in the closed interval from 0.0 to 10.0. -/
theorem C7_privacy_score (sites : Sites) (now : Int) (raws : List String) :
    (cleanStats sites now raws).1.privacy_score
      = calculate_privacy_score (cleanStats sites now raws).1.total_cleaned
          (cleanStats sites now raws).1.total_unique_cookies
    ∧ (cleanStats sites now raws).1.total_cleaned
        ≤ (cleanStats sites now raws).1.total_unique_cookies
    ∧ ((cleanStats sites now raws).1.total_unique_cookies = 0 →
        (cleanStats sites now raws).1.privacy_score = 10)
    ∧ 0 ≤ (cleanStats sites now raws).1.privacy_score
    ∧ (cleanStats sites now raws).1.privacy_score ≤ 10 := by
  have hps : (cleanStats sites now raws).1.privacy_score
      = calculate_privacy_score (cleanStats sites now raws).1.total_cleaned
          (cleanStats sites now raws).1.total_unique_cookies := rfl
  have hle := total_cleaned_le_unique sites now raws
  obtain ⟨hb0, hb1⟩ := calculate_privacy_score_bounds _ _ hle
  refine ⟨hps, hle, ?_, ?_, ?_⟩
  · intro h0
    rw [hps, h0]
    simp [calculate_privacy_score]
  · rw [hps]
    exact hb0
  · rw [hps]
    exact hb1

/-- Witness for C7: on an empty input the total unique count is 0 and
the privacy score is exactly 10. -/
theorem C7_privacy_score_witness : (cleanStats sampleSites 0 []).1.privacy_score = 10 :=
  (C7_privacy_score sampleSites 0 []).2.2.1 rfl

/-! ## C9: oldest cookie age -/

theorem foldl_min_init (a b : Int) (t : List Int) :
    t.foldl min (min a b) = min a (t.foldl min b) := by
  induction t generalizing b with
  | nil => rfl
  | cons c t ih =>
    simp only [List.foldl_cons]
    rw [min_assoc, ih]

theorem int_min?_cons (a : Int) (l : List Int) :
    (a :: l).min? = some (match l.min? with | none => a | some m => min a m) := by
  cases l with
  | nil => rfl
  | cons b t =>
    show some (List.foldl min a (b :: t)) = _
    simp only [List.foldl_cons]
    have : List.foldl min (min a b) t = min a (List.foldl min b t) := foldl_min_init a b t
    rw [this]
    rfl

theorem ite_lt_eq_min (ts old : Int) : (if ts < old then ts else old) = min old ts := by
  rw [Int.min_def]
  split_ifs <;> omega

theorem positiveExpiries_cons_pos {line : String} {ts : Int} (rest : List String)
    (h5 : 5 ≤ (pySplitCh '\t' (pyStrip line)).length)
    (hint : pyInt? ((pySplitCh '\t' (pyStrip line)).getD 4 "") = some ts)
    (hpos : 0 < ts) :
    positiveExpiries (line :: rest) = ts :: positiveExpiries rest := by
  unfold positiveExpiries
  rw [List.filterMap_cons]
  dsimp only
  rw [if_pos h5, hint]
  dsimp only
  rw [List.filter_cons]
  simp [hpos]

theorem positiveExpiries_cons_short {line : String} (rest : List String)
    (h5 : ¬ 5 ≤ (pySplitCh '\t' (pyStrip line)).length) :
    positiveExpiries (line :: rest) = positiveExpiries rest := by
  unfold positiveExpiries
  rw [List.filterMap_cons]
  dsimp only
  rw [if_neg h5]

theorem positiveExpiries_cons_badint {line : String} (rest : List String)
    (h5 : 5 ≤ (pySplitCh '\t' (pyStrip line)).length)
    (hint : pyInt? ((pySplitCh '\t' (pyStrip line)).getD 4 "") = none) :
    positiveExpiries (line :: rest) = positiveExpiries rest := by
  unfold positiveExpiries
  rw [List.filterMap_cons]
  dsimp only
  rw [if_pos h5, hint]

theorem positiveExpiries_cons_nonpos {line : String} {ts : Int} (rest : List String)
    (h5 : 5 ≤ (pySplitCh '\t' (pyStrip line)).length)
    (hint : pyInt? ((pySplitCh '\t' (pyStrip line)).getD 4 "") = some ts)
    (hpos : ¬ 0 < ts) :
    positiveExpiries (line :: rest) = positiveExpiries rest := by
  unfold positiveExpiries
  rw [List.filterMap_cons]
  dsimp only
  rw [if_pos h5, hint]
  dsimp only
  rw [List.filter_cons]
  simp [hpos]

theorem trackedExpiries_cons_track {line : String} {ts : Int} (rest : List String)
    (h5 : 5 ≤ (pySplitCh '\t' (pyStrip line)).length)
    (hint : pyInt? ((pySplitCh '\t' (pyStrip line)).getD 4 "") = some ts)
    (hpos : 0 < ts) (hmax : ts ≤ DATETIME_MAX_TS) :
    trackedExpiries (line :: rest) = ts :: trackedExpiries rest := by
  unfold trackedExpiries
  rw [positiveExpiries_cons_pos rest h5 hint hpos, List.filter_cons]
  simp [hmax]

theorem trackedExpiries_cons_overmax {line : String} {ts : Int} (rest : List String)
    (h5 : 5 ≤ (pySplitCh '\t' (pyStrip line)).length)
    (hint : pyInt? ((pySplitCh '\t' (pyStrip line)).getD 4 "") = some ts)
    (hpos : 0 < ts) (hmax : ¬ ts ≤ DATETIME_MAX_TS) :
    trackedExpiries (line :: rest) = trackedExpiries rest := by
  unfold trackedExpiries
  rw [positiveExpiries_cons_pos rest h5 hint hpos, List.filter_cons]
  simp [hmax]

theorem trackedExpiries_cons_short {line : String} (rest : List String)
    (h5 : ¬ 5 ≤ (pySplitCh '\t' (pyStrip line)).length) :
    trackedExpiries (line :: rest) = trackedExpiries rest := by
  unfold trackedExpiries
  rw [positiveExpiries_cons_short rest h5]

theorem trackedExpiries_cons_badint {line : String} (rest : List String)
    (h5 : 5 ≤ (pySplitCh '\t' (pyStrip line)).length)
    (hint : pyInt? ((pySplitCh '\t' (pyStrip line)).getD 4 "") = none) :
    trackedExpiries (line :: rest) = trackedExpiries rest := by
  unfold trackedExpiries
  rw [positiveExpiries_cons_badint rest h5 hint]

theorem trackedExpiries_cons_nonpos {line : String} {ts : Int} (rest : List String)
    (h5 : 5 ≤ (pySplitCh '\t' (pyStrip line)).length)
    (hint : pyInt? ((pySplitCh '\t' (pyStrip line)).getD 4 "") = some ts)
    (hpos : ¬ 0 < ts) :
    trackedExpiries (line :: rest) = trackedExpiries rest := by
  unfold trackedExpiries
  rw [positiveExpiries_cons_nonpos rest h5 hint hpos]

theorem oldestLoop_eq (lines : List String) (acc : Option Int) :
    oldestLoop acc lines
      = match acc, (trackedExpiries lines).min? with
        | none, m => m
        | some a, none => some a
        | some a, some m => some (min a m) := by
  induction lines generalizing acc with
  | nil =>
    cases acc <;> rfl
  | cons line rest ih =>
    simp only [oldestLoop]
    by_cases h5 : 5 ≤ (pySplitCh '\t' (pyStrip line)).length
    · rw [if_pos h5]
      cases hint : pyInt? ((pySplitCh '\t' (pyStrip line)).getD 4 "") with
      | none =>
        rw [trackedExpiries_cons_badint rest h5 hint]
        exact ih acc
      | some ts =>
        dsimp only
        by_cases hpos : 0 < ts
        · rw [if_pos hpos]
          by_cases hmax : ts ≤ DATETIME_MAX_TS
          · rw [if_pos hmax, trackedExpiries_cons_track rest h5 hint hpos hmax,
              int_min?_cons]
            cases acc with
            | none =>
              dsimp only
              rw [ih (some ts)]
              cases hm : (trackedExpiries rest).min? with
              | none => rfl
              | some m => rfl
            | some old =>
              dsimp only
              rw [ih (some (if ts < old then ts else old))]
              cases hm : (trackedExpiries rest).min? with
              | none =>
                dsimp only
                rw [ite_lt_eq_min]
              | some m =>
                dsimp only
                rw [ite_lt_eq_min, min_assoc]
          · rw [if_neg hmax, trackedExpiries_cons_overmax rest h5 hint hpos hmax]
            exact ih acc
        · rw [if_neg hpos, trackedExpiries_cons_nonpos rest h5 hint hpos]
          exact ih acc
    · rw [if_neg h5, trackedExpiries_cons_short rest h5]
      exact ih acc

theorem oldestLoopExc_ok (platformMax : Int) (lines : List String) :
    ∀ acc : Option Int, (∀ ts ∈ positiveExpiries lines, ts ≤ platformMax) →
      oldestLoopExc platformMax acc lines = .ok (oldestLoop acc lines) := by
  induction lines with
  | nil =>
    intro acc _
    rfl
  | cons line rest ih =>
    intro acc h
    simp only [oldestLoopExc, oldestLoop]
    by_cases h5 : 5 ≤ (pySplitCh '\t' (pyStrip line)).length
    · rw [if_pos h5, if_pos h5]
      cases hint : pyInt? ((pySplitCh '\t' (pyStrip line)).getD 4 "") with
      | none =>
        refine ih acc ?_
        rwa [positiveExpiries_cons_badint rest h5 hint] at h
      | some ts =>
        dsimp only
        by_cases hpos : 0 < ts
        · rw [if_pos hpos, if_pos hpos]
          rw [positiveExpiries_cons_pos rest h5 hint hpos] at h
          have hts : ts ≤ platformMax := h ts (List.mem_cons_self _ _)
          have h2 : ∀ u ∈ positiveExpiries rest, u ≤ platformMax :=
            fun u hu => h u (List.mem_cons_of_mem _ hu)
          by_cases hmax : ts ≤ DATETIME_MAX_TS
          · rw [if_pos hmax, if_pos hmax]
            cases acc with
            | none =>
              dsimp only
              exact ih _ h2
            | some old =>
              dsimp only
              exact ih _ h2
          · rw [if_neg hmax, if_neg hmax, if_pos hts]
            exact ih acc h2
        · rw [if_neg hpos, if_neg hpos]
          refine ih acc ?_
          rwa [positiveExpiries_cons_nonpos rest h5 hint hpos] at h
    · rw [if_neg h5, if_neg h5]
      refine ih acc ?_
      rwa [positiveExpiries_cons_short rest h5] at h

theorem oldestLoopExc_err (platformMax : Int) (hpm : DATETIME_MAX_TS ≤ platformMax)
    (lines : List String) :
    ∀ acc : Option Int, (∃ ts ∈ positiveExpiries lines, platformMax < ts) →
      oldestLoopExc platformMax acc lines = .error .osError := by
  induction lines with
  | nil =>
    intro acc h
    rcases h with ⟨ts, hmem, _⟩
    simp [positiveExpiries] at hmem
  | cons line rest ih =>
    intro acc h
    simp only [oldestLoopExc]
    by_cases h5 : 5 ≤ (pySplitCh '\t' (pyStrip line)).length
    · rw [if_pos h5]
      cases hint : pyInt? ((pySplitCh '\t' (pyStrip line)).getD 4 "") with
      | none =>
        refine ih acc ?_
        rwa [positiveExpiries_cons_badint rest h5 hint] at h
      | some ts =>
        dsimp only
        by_cases hpos : 0 < ts
        · rw [if_pos hpos]
          rw [positiveExpiries_cons_pos rest h5 hint hpos] at h
          by_cases hcr : platformMax < ts
          · rw [if_neg (by omega : ¬ ts ≤ DATETIME_MAX_TS),
              if_neg (by omega : ¬ ts ≤ platformMax)]
          · have h2 : ∃ u ∈ positiveExpiries rest, platformMax < u := by
              rcases h with ⟨u, humem, hugt⟩
              rcases List.mem_cons.mp humem with he | he
              · exact absurd (by omega : platformMax < ts) hcr
              · exact ⟨u, he, hugt⟩
            by_cases hmax : ts ≤ DATETIME_MAX_TS
            · rw [if_pos hmax]
              cases acc with
              | none =>
                dsimp only
                exact ih _ h2
              | some old =>
                dsimp only
                exact ih _ h2
            · rw [if_neg hmax, if_pos (by omega : ts ≤ platformMax)]
              exact ih acc h2
        · rw [if_neg hpos]
          refine ih acc ?_
          rwa [positiveExpiries_cons_nonpos rest h5 hint hpos] at h
    · rw [if_neg h5]
      refine ih acc ?_
      rwa [positiveExpiries_cons_short rest h5] at h

/-- Counterexample to claim C9 as stated: on a line whose field 4 is
253402300800, one second past the end of year 9999, int() succeeds but
`datetime.fromtimestamp` raises ValueError, the caught-exception branch
skips the line and the program answers Unknown, whereas the claimed
tracking of the minimum of every positive parsed expiry would bucket it
as Less than 1 day. -/
theorem C9_oldest_cookie_age_counterexample :
    calculate_oldest_cookie_age 0 ["a.com\tTRUE\t/\tFALSE\t253402300800\tname\tvalue"]
        = "Unknown"
    ∧ oldestAgeSpec 0 ["a.com\tTRUE\t/\tFALSE\t253402300800\tname\tvalue"]
        = "Less than 1 day"
    ∧ calculate_oldest_cookie_age 0 ["a.com\tTRUE\t/\tFALSE\t253402300800\tname\tvalue"]
        ≠ oldestAgeSpec 0 ["a.com\tTRUE\t/\tFALSE\t253402300800\tname\tvalue"] := by
  refine ⟨?_, ?_, ?_⟩ <;> decide

/-- Claim C9 (amended): the oldest-cookie age is computed over all raw
lines before deduplication; for every line with at least 5 tab-separated
fields whose field 4 parses as an integer, expiry 0 (and any
non-positive expiry) is ignored as a session cookie, the minimum
positive expiry timestamp within the datetime range (at most
253402300799, the last second of year 9999) is tracked, and positive
expiries past that range raise a ValueError that the loop catches,
skipping the line like a malformed field; the day count relative to now
(UTC) is bucketed as Less than 1 day, days, months (divided by 30),
years (divided by 365); when no tracked timestamp exists the result is
Unknown.  Expiries beyond the platform time-conversion limit make the
conversion fail with an error the except clause does not catch: below
that limit the exception-aware loop returns exactly the total loop, and
with any expiry past it the call aborts. -/
theorem C9_oldest_cookie_age_amended (sites : Sites) (now platformMax : Int)
    (raws lines : List String) (hpm : DATETIME_MAX_TS ≤ platformMax) :
    calculate_oldest_cookie_age now lines = oldestAgeSpecAmended now lines
    ∧ (trackedExpiries lines = [] → calculate_oldest_cookie_age now lines = "Unknown")
    ∧ (cleanStats sites now raws).1.oldest_cookie_age
        = calculate_oldest_cookie_age now (prepLines raws)
    ∧ ((∀ ts ∈ positiveExpiries lines, ts ≤ platformMax) →
        oldestLoopExc platformMax none lines = .ok (oldestLoop none lines))
    ∧ ((∃ ts ∈ positiveExpiries lines, platformMax < ts) →
        oldestLoopExc platformMax none lines = .error .osError) := by
  have hkey : calculate_oldest_cookie_age now lines = oldestAgeSpecAmended now lines := by
    unfold calculate_oldest_cookie_age oldestAgeSpecAmended
    rw [oldestLoop_eq]
    cases hm : (trackedExpiries lines).min? with
    | none => rfl
    | some m => rfl
  refine ⟨hkey, ?_, rfl, fun h => oldestLoopExc_ok platformMax lines none h,
    fun h => oldestLoopExc_err platformMax hpm lines none h⟩
  intro h0
  rw [hkey]
  unfold oldestAgeSpecAmended
  rw [h0]
  rfl

/-- Witness for the amended C9: when every expiry field is 0 nothing is
tracked, the age is Unknown, and the exception-aware loop returns the
same state as the total loop. -/
theorem C9_oldest_cookie_age_amended_witness :
    calculate_oldest_cookie_age 0 ["a.com\tTRUE\t/\tFALSE\t0\tname\tvalue"] = "Unknown"
    ∧ oldestLoopExc 253402300799 none ["a.com\tTRUE\t/\tFALSE\t0\tname\tvalue"]
        = .ok (oldestLoop none ["a.com\tTRUE\t/\tFALSE\t0\tname\tvalue"]) := by
  have h := C9_oldest_cookie_age_amended [] 0 253402300799 []
    ["a.com\tTRUE\t/\tFALSE\t0\tname\tvalue"] (by decide)
  exact ⟨h.2.1 (by decide), h.2.2.2.1 (by decide)⟩

/-! ## C3: fatal versus recoverable failures -/

/-- Claim C3 (code bug): on a missing input file, parse_cookies re-raises the
FileNotFoundError carrying the file path, but clean_cookies dies with a
NameError for the undefined name file_path inside its error handler, so
the error reaching the caller of clean carries no file-path context.
Malformed lines (fewer than 7 tab-separated fields) are skipped without
aborting, and an existing file parses successfully. -/
theorem C3_missing_file_error :
    clean_cookies sampleSites 0 (fun _ => none) "cookies.txt"
      = .error (.nameError "file_path")
    ∧ parse_cookies sampleSites (fun _ => none) "cookies.txt"
      = .error (.fileNotFound "cookies.txt")
    ∧ parseLine sampleSites initState "bad\tline" = initState
    ∧ parse_cookies sampleSites (fun _ => some sampleRaws) "cookies.txt"
      = .ok (parseLines sampleSites sampleRaws) :=
  ⟨rfl, rfl, rfl, rfl⟩

/-! ## C4: category bonuses -/

theorem bonusStep_social (st : ScoreAcc) :
    bonusStep st "Social butterfly (+2)"
      = ⟨st.score + 2, st.reasons ++ ["+2 Social butterfly"]⟩ := rfl

theorem bonusStep_professional (st : ScoreAcc) :
    bonusStep st "Tech professional (+3)"
      = ⟨st.score + 3, st.reasons ++ ["+3 Tech professional"]⟩ := rfl

theorem bonusStep_entertainment (st : ScoreAcc) :
    bonusStep st "Entertainment addict (+1)"
      = ⟨st.score + 1, st.reasons ++ ["+1 Entertainment addict"]⟩ := rfl

theorem bonusStep_shopping (st : ScoreAcc) :
    bonusStep st "Shopaholic (+2)"
      = ⟨st.score + 2, st.reasons ++ ["+2 Shopaholic"]⟩ := rfl

/-- Claim C4: the category-bonus pass of calculate_score evaluates the four
bonuses in the fixed order social, professional, entertainment,
shopping, each independently: it adds 2 exactly when at least 3 of
facebook, instagram, x, tiktok, discord are counted, 3 exactly when
linkedin and github are both counted, 1 exactly when at least 2 of
netflix, spotify, twitch, youtube are counted, and 2 exactly when at
least 2 of amazon, ebay, paypal are counted, appending one reason per
applicable bonus in that order. -/
theorem C4_category_bonus_order (st : ScoreAcc) (sc : List (String × Nat)) :
    bonusSegment st sc
      = ⟨st.score + bonusPointsSpec sc, st.reasons ++ bonusReasonsSpec sc⟩ := by
  have hcp1 : setInterCard (lookupD CATEGORY_SCORES "social" []) (counterKeys sc)
      = countPresent ["facebook", "instagram", "x", "tiktok", "discord"] sc := rfl
  have hcp3 : setInterCard (lookupD CATEGORY_SCORES "entertainment" []) (counterKeys sc)
      = countPresent ["netflix", "spotify", "twitch", "youtube"] sc := rfl
  have hcp4 : setInterCard (lookupD CATEGORY_SCORES "shopping" []) (counterKeys sc)
      = countPresent ["amazon", "ebay", "paypal"] sc := rfl
  have e1 : (3 ≤ setInterCard (lookupD CATEGORY_SCORES "social" []) (counterKeys sc))
      ↔ (socialApplies sc = true) := by
    unfold socialApplies
    rw [decide_eq_true_eq, hcp1]
  have e2 : (((counterKeys sc).contains "linkedin"
        && (counterKeys sc).contains "github") = true)
      ↔ (professionalApplies sc = true) := Iff.rfl
  have e3 : (2 ≤ setInterCard (lookupD CATEGORY_SCORES "entertainment" []) (counterKeys sc))
      ↔ (entertainmentApplies sc = true) := by
    unfold entertainmentApplies
    rw [decide_eq_true_eq, hcp3]
  have e4 : (2 ≤ setInterCard (lookupD CATEGORY_SCORES "shopping" []) (counterKeys sc))
      ↔ (shoppingApplies sc = true) := by
    unfold shoppingApplies
    rw [decide_eq_true_eq, hcp4]
  unfold bonusSegment calculate_category_bonuses bonusPointsSpec bonusReasonsSpec
  simp only [e1, e2, e3, e4]
  split_ifs
  all_goals simp only [List.foldl_append, List.foldl_cons, List.foldl_nil,
    bonusStep_social, bonusStep_professional, bonusStep_entertainment, bonusStep_shopping]
  all_goals refine congrArg₂ ScoreAcc.mk ?_ ?_
  all_goals first
    | omega
    | simp

/-! ## C10: services listing -/

theorem dedupFirstAux_mem (seen l : List String) (x : String) :
    x ∈ dedupFirstAux seen l ↔ x ∈ l ∧ x ∉ seen := by
  induction l generalizing seen with
  | nil => simp [dedupFirstAux]
  | cons a t ih =>
    simp only [dedupFirstAux]
    by_cases hc : seen.contains a = true
    · rw [if_pos hc]
      have ha : a ∈ seen := (contains_iff_mem seen a).mp hc
      rw [ih seen]
      constructor
      · rintro ⟨hx, hns⟩
        exact ⟨List.mem_cons_of_mem a hx, hns⟩
      · rintro ⟨hx, hns⟩
        rcases List.mem_cons.mp hx with h | h
        · exact absurd (show x ∈ seen by rw [h]; exact ha) hns
        · exact ⟨h, hns⟩
    · rw [if_neg hc]
      have ha : a ∉ seen := not_mem_of_contains_ne_true hc
      constructor
      · intro hx
        rcases List.mem_cons.mp hx with h | h
        · subst h
          exact ⟨List.mem_cons_self _ _, ha⟩
        · obtain ⟨h1, h2⟩ := (ih (a :: seen)).mp h
          exact ⟨List.mem_cons_of_mem a h1,
            fun hm => h2 (List.mem_cons_of_mem a hm)⟩
      · rintro ⟨hx, hns⟩
        rcases List.mem_cons.mp hx with h | h
        · subst h
          exact List.mem_cons_self _ _
        · by_cases hxa : x = a
          · subst hxa
            exact List.mem_cons_self _ _
          · refine List.mem_cons_of_mem a ((ih (a :: seen)).mpr ⟨h, fun hm => ?_⟩)
            rcases List.mem_cons.mp hm with h2 | h2
            · exact hxa h2
            · exact hns h2

theorem dedupFirst_mem (l : List String) (x : String) :
    x ∈ dedupFirst l ↔ x ∈ l := by
  unfold dedupFirst
  rw [dedupFirstAux_mem]
  simp

theorem sortByOrder_mem (l : List String) (x : String) :
    x ∈ sortByOrder l ↔ x ∈ l :=
  (List.perm_insertionSort (fun a b => orderKey a ≤ orderKey b) l).mem_iff

theorem sortByOrder_sorted (l : List String) :
    List.Sorted (fun a b => orderKey a ≤ orderKey b) (sortByOrder l) :=
  List.sorted_insertionSort (fun a b => orderKey a ≤ orderKey b) l

/-- Claim C10: every services list of the Result is sorted by the fixed
display order; for a site present in the catalog it holds every
configured service name, and its members are exactly the configured
services together with the detected non-empty labels; for a site absent
from the catalog its members are exactly the detected non-empty labels
(the empty label is excluded). -/
theorem C10_services_listing (sites : Sites) (now : Int) (raws : List String) :
    ∀ site svcs, (site, svcs) ∈ (cleanStats sites now raws).1.services →
      List.Sorted (fun a b => orderKey a ≤ orderKey b) svcs
      ∧ (∀ q, sites.find? (fun p => p.1 == site) = some q →
          (∀ s ∈ q.2.services.map Prod.fst, s ∈ svcs)
          ∧ (∀ x, x ∈ svcs ↔
              ((x ∈ detectedLabels sites raws site ∧ x ≠ "")
                ∨ x ∈ q.2.services.map Prod.fst)))
      ∧ (sites.find? (fun p => p.1 == site) = none →
          ∀ x, x ∈ svcs ↔ (x ∈ detectedLabels sites raws site ∧ x ≠ "")) := by
  intro site svcs hmem
  have hsvc : (cleanStats sites now raws).1.services
      = services_dict sites (parseLines sites raws) := rfl
  rw [hsvc] at hmem
  unfold services_dict at hmem
  rcases List.mem_map.mp hmem with ⟨p, hp, heq⟩
  dsimp only at heq
  cases hf : sites.find? (fun q => q.1 == p.1) with
  | none =>
    rw [hf] at heq
    dsimp only at heq
    rw [Prod.mk.injEq] at heq
    obtain ⟨hsite, hsvcs⟩ := heq
    subst hsite
    subst hsvcs
    refine ⟨sortByOrder_sorted _, ?_, ?_⟩
    · intro q hq
      rw [hf] at hq
      cases hq
    · intro _ x
      rw [sortByOrder_mem, List.mem_filter]
      unfold detectedLabels
      simp [decide_eq_true_eq]
  | some q0 =>
    rw [hf] at heq
    dsimp only at heq
    rw [Prod.mk.injEq] at heq
    obtain ⟨hsite, hsvcs⟩ := heq
    subst hsite
    subst hsvcs
    refine ⟨sortByOrder_sorted _, ?_, ?_⟩
    · intro q hq
      rw [hf] at hq
      injection hq with hq
      subst hq
      constructor
      · intro s hs
        rw [sortByOrder_mem, dedupFirst_mem]
        exact List.mem_append_right _ hs
      · intro x
        rw [sortByOrder_mem, dedupFirst_mem, List.mem_append, List.mem_filter]
        unfold detectedLabels
        simp [decide_eq_true_eq]
    · intro h0
      rw [hf] at h0
      cases h0

/-- Witness for C10: on the sample input the facebook services list is
the sorted singleton containing the configured service. -/
theorem C10_services_listing_witness :
    List.Sorted (fun a b => orderKey a ≤ orderKey b) (["facebook"] : List String)
    ∧ ("facebook" : String) ∈ (["facebook"] : List String) := by
  have h := C10_services_listing sampleSites 0 sampleRaws "facebook" ["facebook"] (by decide)
  refine ⟨h.1, ?_⟩
  have h2 := h.2.1 ("facebook", ⟨[("facebook", ["facebook"])], ["c_user", "xs"]⟩) rfl
  exact h2.1 "facebook" (by decide)

end Cleaner
